import Mathlib

/-!
Shallow embedding of the `mhubclient-go` streaming client (`client.go`, both
evolutions found in the repository) and proofs about its frame codec, read
loop, connection supervisor and publisher.

Go strings are modelled as lists of characters (`Str`); `nil` pointers and
runtime panics are modelled with `Option` (`none` = nil / panic); the
blocking socket is modelled as a script of read results; goroutine spawns
and deferred closes are recorded as trace events.
-/

namespace MHubClient

/-- Characters of a Go string (each byte of the inputs we consider is one
character). -/
abbrev Str := List Char

/-- Character list of a Lean string literal, used for concrete inputs. -/
def chars (s : String) : Str := s.data

/-- Embedding of Go `strings.Split(msg, ".")` for the single-character
separator `'.'`: splits around every occurrence of `'.'`; the empty string
yields one empty part, matching Go's behaviour. -/
def splitOnDot : Str → List Str
  | [] => [[]]
  | c :: rest =>
    if c = '.' then [] :: splitOnDot rest
    else
      match splitOnDot rest with
      | [] => [[c]]
      | p :: ps => (c :: p) :: ps

/-- The `Message` struct of the second evolution (`Payload []byte`; a Go
byte slice rendered through `%s` behaves as its string of bytes, so we keep
`Str`). The first evolution's `Payload string` has the same model. -/
structure Message where
  SubscriberID : Str
  Topic : Str
  Payload : Str
deriving DecidableEq

/-- Embedding of `NewMessage`. -/
def NewMessage (subscriberID topic payload : Str) : Message :=
  ⟨subscriberID, topic, payload⟩

/-- Embedding of `(m *Message) String()`:
`fmt.Sprintf("%s.%s.%s\n", m.SubscriberID, m.Topic, m.Payload)`. -/
def Message.String (m : Message) : Str :=
  m.SubscriberID ++ '.' :: m.Topic ++ '.' :: m.Payload ++ ['\n']

/-- Embedding of the first evolution's `parseMessage`: split on `'.'`,
reject unless exactly 4 parts, else rebuild the payload as parts 2 and 3
joined by `'.'`. The Go result `(m *Message, ok bool)` is
`Option Message × Bool`. -/
def parseMessage (msg : Str) : Option Message × Bool :=
  match splitOnDot msg with
  | [s0, s1, s2, s3] => (some ⟨s0, s1, s2 ++ '.' :: s3⟩, true)
  | _ => (none, false)

/-- Embedding of the second evolution's `defaultParser`: it indexes parts
0..3 of the split with NO length check, so when the split has fewer than 4
parts the Go slice index is out of range — a runtime panic, modelled as the
outer `none`. When more than 4 parts are present the extra parts are
silently dropped and `ok = true` is returned. -/
def defaultParser (msg : Str) : Option (Option Message × Bool) :=
  let msgSplit := splitOnDot msg
  match msgSplit[0]?, msgSplit[1]?, msgSplit[2]?, msgSplit[3]? with
  | some s0, some s1, some s2, some s3 =>
      some (some ⟨s0, s1, s2 ++ '.' :: s3⟩, true)
  | _, _, _, _ => none

/-- The `HubClient` struct of the second evolution. The `Handler` callback
and the resolved `Address` do not influence any claim (dispatches are
recorded in traces instead) and are omitted; `Conn` is a connection
identity, `none` standing for Go's nil `*tls.Conn`. -/
structure HubClient where
  SubscriberID : Str
  Topics : List Str
  Parser : Option (Str → Message × Bool)
  Conn : Option Nat
  Debug : Bool

/-- Embedding of the second evolution's `(h *HubClient) parse`: with no
custom parser it falls through to `defaultParser`; with a custom parser the
code executes `*m, ok = h.Parser(msg)` where `m` is the named return of
type `*Message`, still its zero value nil — the store through the nil
pointer is a runtime panic (outer `none`). Go evaluates the right-hand side
call before the store, which the `let` mirrors. -/
def HubClient.parse (h : HubClient) (msg : Str) : Option (Option Message × Bool) :=
  match h.Parser with
  | none => defaultParser msg
  | some parser =>
      let m : Option Message := none
      let res := parser msg
      match m with
      | some _ => some (some res.1, res.2)
      | none => none

/-- One result of `h.Conn.Read(b)` on the 1024-byte buffer: either an
error, or the bytes the socket wrote into the buffer (their count is the
`n` the Go code discards). -/
inductive ReadResult where
  | data (bytes : Str)
  | err
deriving DecidableEq

/-- Size of the receive buffer: `b := make([]byte, 1024)`. -/
def bufSize : Nat := 1024

/-- Embedding of `string(b)` after `Read` wrote `bytes` into the
zero-initialised 1024-byte buffer: the read count is discarded, so the
whole buffer is converted, NUL padding included. -/
def bufferString (bytes : Str) : Str :=
  List.take bufSize bytes ++ List.replicate (bufSize - bytes.length) (Char.ofNat 0)

/-- How a run of the read loop ended. `blocked` means the read script is
exhausted: the real loop would block in `Read` forever. -/
inductive LoopExit where
  | readError
  | badFrame
  | panicked
  | blocked
deriving DecidableEq

/-- Embedding of the second evolution's `(h *HubClient) getmessages` over a
script of reads. Returns the strings handed to `h.parse`, the messages
handed to `go h.Handler(*m)` in spawn order, and how the loop ended: a read
error `break`s, a not-ok parse `return`s (`badFrame`), a parse panic or a
nil `*m` dereference aborts (`panicked`). -/
def HubClient.getmessages (h : HubClient) : List ReadResult → List Str × List Message × LoopExit
  | [] => ([], [], .blocked)
  | .err :: _ => ([], [], .readError)
  | .data bytes :: rest =>
      let inMsg := bufferString bytes
      match h.parse inMsg with
      | none => ([inMsg], [], .panicked)
      | some (_, false) => ([inMsg], [], .badFrame)
      | some (none, true) => ([inMsg], [], .panicked)
      | some (some mv, true) =>
          let r := h.getmessages rest
          (inMsg :: r.1, mv :: r.2.1, r.2.2)

/-- Embedding of the first evolution's `getmessages`, identical but for the
parse step, which is the guarded `parseMessage`. -/
def HubClient.getmessagesV1 (h : HubClient) : List ReadResult → List Str × List Message × LoopExit
  | [] => ([], [], .blocked)
  | .err :: _ => ([], [], .readError)
  | .data bytes :: rest =>
      let inMsg := bufferString bytes
      match parseMessage inMsg with
      | (_, false) => ([inMsg], [], .badFrame)
      | (none, true) => ([inMsg], [], .panicked)
      | (some mv, true) =>
          let r := h.getmessagesV1 rest
          (inMsg :: r.1, mv :: r.2.1, r.2.2)

/-- Outcome of one `tls.Dial` attempt: a fresh connection identity or a
failure. -/
inductive Dial where
  | ok (conn : Nat)
  | fail
deriving DecidableEq

/-- Embedding of the second evolution's `(h *HubClient) Connect`. On a
successful dial the connection is stored and nil is returned. On a failed
dial the error is returned ONLY inside the `else if h.Debug` branch; with
`Debug` false the function falls through to `return nil` and `h.Conn` is
left unchanged. The boolean result is true iff a non-nil error is
returned. -/
def HubClient.Connect (h : HubClient) (d : Dial) : HubClient × Bool :=
  match d with
  | .ok c => ({ h with Conn := some c }, false)
  | .fail => if h.Debug then (h, true) else (h, false)

/-- What one iteration of the second evolution's `GetMessages` supervisor
loop does after `Connect`: enter the blocking read loop, or sleep the fixed
`10 * time.Second` backoff. -/
inductive SupEvent where
  | enteredReadLoop
  | sleptTenSeconds
deriving DecidableEq

/-- Embedding of one iteration of the second evolution's `GetMessages`
loop: `if err := h.Connect(); err == nil { h.getmessages() } else {
time.Sleep(10 * time.Second) }`. -/
def HubClient.GetMessagesStep (h : HubClient) (d : Dial) : HubClient × SupEvent :=
  match h.Connect d with
  | (h2, false) => (h2, .enteredReadLoop)
  | (h2, true) => (h2, .sleptTenSeconds)

/-- Observable effects of one `Publish` call, in program order. A deferred
`h.Conn.Close()` evaluates its receiver when the `defer` statement runs —
at entry, before `Connect` — so the close targets the entry-time
connection; closing a nil connection is a runtime panic. The write is only
spawned (`go h.Conn.Write(...)`): nothing orders it before the deferred
close. -/
inductive PubEffect where
  | dialed (d : Dial)
  | spawnedWrite (conn : Option Nat) (frame : Str)
  | closedConn (conn : Nat)
  | panickedNilClose
deriving DecidableEq

/-- Embedding of the second evolution's `(h *HubClient) Publish`: defer the
close of the entry-time connection, build and encode the message, `Connect`
(a fresh dial), return early on a non-nil error, else spawn the write of
the frame on the now-current connection; the deferred close runs last in
either case. -/
def HubClient.Publish (h : HubClient) (topic payload : Str) (d : Dial) :
    HubClient × List PubEffect :=
  let deferredConn := h.Conn
  let m := NewMessage h.SubscriberID topic payload
  let msg := m.String
  let res := h.Connect d
  let h2 := res.1
  let closeEff : PubEffect :=
    match deferredConn with
    | some c0 => .closedConn c0
    | none => .panickedNilClose
  if res.2 then (h2, [.dialed d, closeEff])
  else (h2, [.dialed d, .spawnedWrite h2.Conn msg, closeEff])

/-- A custom parser used for concrete runs: echoes its input as the
subscriber id. -/
def constParser : Str → Message × Bool := fun s => (⟨s, [], []⟩, true)

/-- A concrete client: no custom parser, an open connection `0`, debug
off. -/
def hEx : HubClient := ⟨chars "3456", [], none, some 0, false⟩

/-- A concrete client with a custom parser configured. -/
def hWithParser : HubClient := ⟨chars "3456", [], some constParser, none, false⟩

/-- A concrete client with the debug flag on and no connection yet. -/
def hDebugOn : HubClient := ⟨chars "3456", [], none, none, true⟩

/-- A concrete client with the debug flag off and no connection yet. -/
def hNoConn : HubClient := ⟨chars "3456", [], none, none, false⟩

theorem splitOnDot_of_not_mem (xs : Str) (hx : '.' ∉ xs) : splitOnDot xs = [xs] := by
  induction xs with
  | nil => rfl
  | cons c rest ih =>
    have hc : ¬ c = '.' := fun h => hx (h ▸ List.mem_cons_self c rest)
    have hr : '.' ∉ rest := fun h => hx (List.mem_cons_of_mem c h)
    simp only [splitOnDot, if_neg hc, ih hr]

theorem splitOnDot_append_dot (xs ys : Str) (hx : '.' ∉ xs) :
    splitOnDot (xs ++ '.' :: ys) = xs :: splitOnDot ys := by
  induction xs with
  | nil => simp [splitOnDot]
  | cons c rest ih =>
    have hc : ¬ c = '.' := fun h => hx (h ▸ List.mem_cons_self c rest)
    have hr : '.' ∉ rest := fun h => hx (List.mem_cons_of_mem c h)
    have ih2 := ih hr
    simp only [List.cons_append, splitOnDot, if_neg hc, List.append_eq]
    rw [ih2]

theorem encode_unfold (sub top pay : Str) :
    (Message.mk sub top pay).String = sub ++ '.' :: (top ++ '.' :: (pay ++ ['\n'])) := by
  simp [Message.String]

theorem bufferString_length (bytes : Str) : (bufferString bytes).length = bufSize := by
  simp [bufferString, List.length_take, List.length_replicate]
  omega

theorem bufferString_of_le (bytes : Str) (hb : bytes.length ≤ bufSize) :
    bufferString bytes = bytes ++ List.replicate (bufSize - bytes.length) (Char.ofNat 0) := by
  rw [bufferString, List.take_of_length_le hb]

theorem dot_not_mem_bufferString (bytes : Str) (hb : '.' ∉ bytes) :
    '.' ∉ bufferString bytes := by
  intro hm
  rcases List.mem_append.1 hm with hm | hm
  · exact hb (List.mem_of_mem_take hm)
  · exact absurd (List.eq_of_mem_replicate hm) (by decide)

theorem parseMessage_padded_nodots (bytes : Str) (hb : '.' ∉ bytes) :
    parseMessage (bufferString bytes) = (none, false) := by
  rw [parseMessage, splitOnDot_of_not_mem _ (dot_not_mem_bufferString bytes hb)]

theorem getmessages_inputs_sized (h : HubClient) (reads : List ReadResult) :
    ∀ inp ∈ (h.getmessages reads).1, inp.length = bufSize := by
  induction reads with
  | nil => simp [HubClient.getmessages]
  | cons r rest ih =>
    cases r with
    | err => simp [HubClient.getmessages]
    | data bytes =>
      rcases hp : h.parse (bufferString bytes) with _ | ⟨_ | mv, _ | _⟩ <;>
        simp_all [HubClient.getmessages, bufferString_length]

theorem getmessagesV1_inputs_sized (h : HubClient) (reads : List ReadResult) :
    ∀ inp ∈ (h.getmessagesV1 reads).1, inp.length = bufSize := by
  induction reads with
  | nil => simp [HubClient.getmessagesV1]
  | cons r rest ih =>
    cases r with
    | err => simp [HubClient.getmessagesV1]
    | data bytes =>
      rcases hp : parseMessage (bufferString bytes) with ⟨_ | mv, _ | _⟩ <;>
        simp_all [HubClient.getmessagesV1, bufferString_length]

/-- C1: the claim says decode returns `ok=false` on any frame that does not
split into exactly 4 dot-separated parts and never crashes; the first
evolution's `parseMessage` honours this, but the second evolution's
`defaultParser` dropped the length guard: on `"bad-frame-no-dots\n"` (one
part) it indexes out of range and panics (`none`), and on a five-part frame
it returns `ok=true`, silently dropping the fifth part. -/
theorem defaultParser_partcount_bug :
    parseMessage (chars "bad-frame-no-dots\n") = (none, false) ∧
    defaultParser (chars "bad-frame-no-dots\n") = none ∧
    defaultParser (chars "a.b.c.d.e")
      = some (some (Message.mk (chars "a") (chars "b") (chars "c.d")), true) := by
  decide

/-- C2 counterexample: decoding the encoding of
`⟨"3456", "orders", "created.42"⟩` does NOT give the message back — the
trailing `'\n'` appended by encode is never stripped by decode, so the
payload comes back as `"created.42\n"`. -/
theorem roundtrip_counterexample :
    defaultParser ((Message.mk (chars "3456") (chars "orders") (chars "created.42")).String)
      ≠ some (some (Message.mk (chars "3456") (chars "orders") (chars "created.42")), true) := by
  decide

/-- C2 (amended): for a message whose subscriber id and topic are dot-free
and whose payload `p1 ++ '.' :: p2` contains exactly one dot, decode of its
encoding succeeds and preserves subscriber id and topic, but the payload
comes back with the encode-time `'\n'` appended. -/
theorem roundtrip_appends_newline (sub top p1 p2 : Str)
    (h1 : '.' ∉ sub) (h2 : '.' ∉ top) (h3 : '.' ∉ p1) (h4 : '.' ∉ p2) :
    defaultParser ((Message.mk sub top (p1 ++ '.' :: p2)).String) =
      some (some (Message.mk sub top ((p1 ++ '.' :: p2) ++ ['\n'])), true) := by
  have h5 : '.' ∉ p2 ++ ['\n'] := by
    intro hm
    rcases List.mem_append.1 hm with hm | hm
    · exact h4 hm
    · simp at hm
  have hsplit : splitOnDot ((Message.mk sub top (p1 ++ '.' :: p2)).String)
      = [sub, top, p1, p2 ++ ['\n']] := by
    rw [encode_unfold,
      show (p1 ++ '.' :: p2) ++ ['\n'] = p1 ++ '.' :: (p2 ++ ['\n']) from by simp,
      splitOnDot_append_dot sub _ h1, splitOnDot_append_dot top _ h2,
      splitOnDot_append_dot p1 _ h3, splitOnDot_of_not_mem _ h5]
  simp [defaultParser, hsplit]

/-- C2 witness: the amended round-trip at the spec's concrete example. -/
theorem roundtrip_appends_newline_witness :
    defaultParser ((Message.mk (chars "3456") (chars "orders")
        (chars "created" ++ '.' :: chars "42")).String) =
      some (some (Message.mk (chars "3456") (chars "orders")
        ((chars "created" ++ '.' :: chars "42") ++ ['\n'])), true) :=
  roundtrip_appends_newline (chars "3456") (chars "orders") (chars "created") (chars "42")
    (by decide) (by decide) (by decide) (by decide)

/-- C3 counterexample: a concrete session delivering a malformed frame, a
well-formed frame and a read error, run through the first evolution's read
loop. The loop exits with `badFrame` at the first frame: nothing is
dispatched and the second frame is never read, refuting the claim that the
loop drops the bad frame and continues on the same session. -/
theorem decode_failure_stops_loop_cex :
    hEx.getmessagesV1
        [.data (chars "bad-frame-no-dots\n"), .data (chars "s.t.a.b"), .err]
      = ([bufferString (chars "bad-frame-no-dots\n")], [], .badFrame) ∧
    LoopExit.badFrame ≠ LoopExit.readError := by
  have hb : '.' ∉ chars "bad-frame-no-dots\n" := by decide
  have hpm := parseMessage_padded_nodots _ hb
  exact ⟨by simp [HubClient.getmessagesV1, hpm], by decide⟩

/-- C3 (amended): a frame that fails to decode ends the read loop at once
(the code executes `return`, not `continue`): the failing frame is the only
string handed to the parser, nothing is dispatched, and the remaining reads
of the session are abandoned; the supervisor then reconnects exactly as it
does after a transport read error. -/
theorem badframe_terminates_loop (h : HubClient) (bytes : Str) (rest : List ReadResult)
    (hbad : (parseMessage (bufferString bytes)).2 = false) :
    h.getmessagesV1 (.data bytes :: rest) = ([bufferString bytes], [], .badFrame) := by
  rcases hpm : parseMessage (bufferString bytes) with ⟨m, ok⟩
  rw [hpm] at hbad
  simp only at hbad
  subst hbad
  simp [HubClient.getmessagesV1, hpm]

/-- C3 witness: the amended statement at a concrete malformed frame. -/
theorem badframe_terminates_loop_witness :
    hEx.getmessagesV1 [.data (chars "bad-frame-no-dots\n")]
      = ([bufferString (chars "bad-frame-no-dots\n")], [], .badFrame) :=
  badframe_terminates_loop hEx (chars "bad-frame-no-dots\n") []
    (by rw [parseMessage_padded_nodots _ (by decide)])

/-- C4: with no custom parser configured, `parse` does fall back to
`defaultParser` for every input (first conjunct); but with a custom parser
configured, `parse` assigns through the nil named-return pointer `m` and
panics (`none`) instead of returning the custom parser's result (second
conjunct, at a client whose parser would have succeeded on the input). -/
theorem parse_custom_never_returns :
    (∀ msg : Str, hEx.parse msg = defaultParser msg) ∧
    hWithParser.parse (chars "x.y.z.w") = none :=
  ⟨fun _ => rfl, rfl⟩

/-- C5: with the debug flag off, a failed dial makes `Connect` return nil,
so the supervisor iteration enters the read loop with the connection still
absent and never sleeps; only with the debug flag on does a failed dial
produce the 10-second backoff. This refutes the claimed
backoff-regardless-of-debug and never-read-without-handshake behaviour. -/
theorem supervisor_no_backoff_without_debug :
    hNoConn.GetMessagesStep .fail = (hNoConn, .enteredReadLoop) ∧
    hNoConn.Conn = none ∧
    (hDebugOn.GetMessagesStep .fail).2 = .sleptTenSeconds :=
  ⟨rfl, rfl, rfl⟩

/-- C6 counterexample: publishing on a client whose current connection is
`0` while the dial opens fresh connection `1` produces exactly one spawned
(asynchronous, unordered) write of the encoded frame, and the deferred
close releases connection `0` — the entry-time connection, not the fresh
session `1` the claim says is released after the write. -/
theorem publish_releases_stale_conn :
    (hEx.Publish (chars "orders") (chars "created.42") (.ok 1)).2 =
      [.dialed (.ok 1),
       .spawnedWrite (some 1) (chars "3456.orders.created.42\n"),
       .closedConn 0] ∧ (0 : Nat) ≠ 1 :=
  ⟨rfl, by decide⟩

/-- C6 (amended): publish builds the message from the client's own
subscriber id, encodes it, dials a fresh session and spawns one
asynchronous write of the encoded frame on that fresh session; the deferred
close then releases the connection captured at entry (the previous
session), not the fresh one, and nothing orders the spawned write before
that close. -/
theorem publish_trace (h : HubClient) (topic payload : Str) (c c0 : Nat)
    (hc : h.Conn = some c0) :
    h.Publish topic payload (.ok c) =
      ({ h with Conn := some c },
       [.dialed (.ok c),
        .spawnedWrite (some c) ((NewMessage h.SubscriberID topic payload).String),
        .closedConn c0]) := by
  simp [HubClient.Publish, HubClient.Connect, hc]

/-- C6 witness: the amended publish trace at a concrete client. -/
theorem publish_trace_witness :
    hEx.Publish (chars "orders") (chars "created.42") (.ok 1) =
      ({ hEx with Conn := some 1 },
       [.dialed (.ok 1),
        .spawnedWrite (some 1)
          ((NewMessage hEx.SubscriberID (chars "orders") (chars "created.42")).String),
        .closedConn 0]) :=
  publish_trace hEx (chars "orders") (chars "created.42") 1 0 rfl

/-- C7: the encoded frame is exactly the three fields joined by `'.'`
followed by a single `'\n'` and nothing else. -/
theorem encode_dot_joined_newline (m : Message) :
    m.String = List.intercalate ['.'] [m.SubscriberID, m.Topic, m.Payload] ++ ['\n'] := by
  simp [Message.String, List.intercalate, List.intersperse]

/-- C8: whenever a custom parser is configured, `parse` evaluates it and
then stores its result through the nil named-return pointer, a nil-pointer
dereference: it panics on every input and can never deliver a message. -/
theorem custom_parser_path_panics (h : HubClient) (p : Str → Message × Bool) (msg : Str)
    (hp : h.Parser = some p) : h.parse msg = none := by
  simp [HubClient.parse, hp]

/-- C8 witness: the panic at a concrete client and input. -/
theorem custom_parser_path_panics_witness : hWithParser.parse (chars "a") = none :=
  custom_parser_path_panics hWithParser constParser (chars "a") rfl

/-- C9: every string either read loop hands to its parser has length
exactly `bufSize = 1024` — the byte count from the socket read is discarded
and the whole fixed-size buffer is converted — and a read of at most 1024
bytes reaches the parser as the data followed by trailing NUL padding. -/
theorem readloop_pads_to_buffer (h : HubClient) (reads : List ReadResult) :
    (∀ inp ∈ (h.getmessages reads).1, inp.length = bufSize) ∧
    (∀ inp ∈ (h.getmessagesV1 reads).1, inp.length = bufSize) ∧
    (∀ bytes : Str, bytes.length ≤ bufSize →
      bufferString bytes = bytes ++ List.replicate (bufSize - bytes.length) (Char.ofNat 0)) :=
  ⟨getmessages_inputs_sized h reads, getmessagesV1_inputs_sized h reads,
    fun bytes hb => bufferString_of_le bytes hb⟩

/-- C9 witness: the NUL padding of a concrete short frame. -/
theorem readloop_pads_to_buffer_witness :
    bufferString (chars "a.b.c.d\n") =
      chars "a.b.c.d\n" ++
        List.replicate (bufSize - (chars "a.b.c.d\n").length) (Char.ofNat 0) :=
  (readloop_pads_to_buffer hEx []).2.2 (chars "a.b.c.d\n") (by decide)

/-- C10: with the debug flag off, `Connect` returns a nil error even when
the dial fails, and the client — its `Conn` field included — is left
unchanged, so the caller cannot tell a failed handshake from a successful
one. -/
theorem connect_silent_failure (h : HubClient) (hd : h.Debug = false) :
    h.Connect .fail = (h, false) := by
  simp [HubClient.Connect, hd]

/-- C10 witness: the silent failure at a concrete client. -/
theorem connect_silent_failure_witness : hEx.Connect .fail = (hEx, false) :=
  connect_silent_failure hEx rfl

end MHubClient
